import Mathlib

/-!
Verification of the escpos-parser core (src/lib/commands.js, src/lib/parser.js).

Modelling choices of the shallow embedding:
* bytes are Nat, a byte buffer is a List Nat;
* the external iconv-lite decoder is abstracted as an oracle of type
  String → List Nat → Option String, where none models a thrown decode error;
* the tokenizer loops (the while loops of parseTextData and parseBuffer) are
  written with explicit fuel; the top-level wrappers supply fuel that is proved
  (and, in the partition theorem, shown) sufficient, so every definition is
  executable and reduces by rfl / decide;
* JavaScript truthiness on the relevant values is modelled explicitly
  (jsOrNat for the pattern value || default, Option Nat for possibly
  undefined parameter bytes).
-/

/-- One entry of the COMMANDS registry of src/lib/commands.js: a byte
signature, the declared command name, and whether its parse function reads the
parameter byte data[index + 2] into the value field (true for every registered
command except INITIALIZE, whose parse returns no value field). -/
structure CommandDef where
  name : String
  bytes : List Nat
  takesValue : Bool
deriving DecidableEq

/-- The COMMANDS registry of src/lib/commands.js, in object-literal insertion
order, which is the order Object.entries enumerates in findCommand. -/
def COMMANDS : List CommandDef := [
  { name := "INITIALIZE", bytes := [0x1b, 0x40], takesValue := false },
  { name := "ALIGN", bytes := [0x1b, 0x61], takesValue := true },
  { name := "PRINT_AND_FEED", bytes := [0x1b, 0x64], takesValue := true },
  { name := "CUT_PAPER", bytes := [0x1d, 0x56], takesValue := true },
  { name := "FONT_SIZE", bytes := [0x1d, 0x21], takesValue := true },
  { name := "BOLD", bytes := [0x1b, 0x45], takesValue := true },
  { name := "UNDERLINE", bytes := [0x1b, 0x2d], takesValue := true },
  { name := "LINE_SPACING", bytes := [0x1b, 0x33], takesValue := true },
  { name := "CHAR_SPACING", bytes := [0x1b, 0x20], takesValue := true },
  { name := "BOLD_MODE", bytes := [0x1d, 0x42], takesValue := true }]

/-- Byte-by-byte comparison loop of findCommand: the bytes of the candidate
signature are compared against data starting at index. -/
def bytesMatch (data : List Nat) : Nat → List Nat → Bool
  | _, [] => true
  | index, b :: rest => (data.getD index 0 == b) && bytesMatch data (index + 1) rest

/-- Signature test of findCommand: enough bytes must remain (the source
continues past a definition when index + bytes.length > data.length) and every
signature byte must match. -/
def sigMatches (data : List Nat) (index : Nat) (bytes : List Nat) : Bool :=
  decide (index + bytes.length ≤ data.length) && bytesMatch data index bytes

/-- findCommand of src/lib/commands.js, generalized over the registry list: the
first definition (in registry order) whose signature matches at index. -/
def findCommandIn (registry : List CommandDef) (data : List Nat) (index : Nat) :
    Option CommandDef :=
  registry.find? (fun c => sigMatches data index c.bytes)

/-- findCommand of src/lib/commands.js over the actual COMMANDS registry. -/
def findCommand (data : List Nat) (index : Nat) : Option CommandDef :=
  findCommandIn COMMANDS data index

/-- isPrintableChar of src/lib/commands.js: ASCII 32..126 or anything ≥ 128. -/
def isPrintableChar (b : Nat) : Bool :=
  decide ((32 ≤ b ∧ b ≤ 126) ∨ 128 ≤ b)

/-- isNewLine of src/lib/commands.js: 0x0a or 0x0d. -/
def isNewLine (b : Nat) : Bool :=
  decide (b = 0x0a ∨ b = 0x0d)

/-- Token union produced by the tokenizer: a command item (command name plus
the possibly undefined parameter value) or a text item (decoded string plus the
raw collected bytes). The description / encoding fields of the source items
carry no decision logic and are not claimed about, so they are omitted. -/
inductive Item where
  | command (command : String) (value : Option Nat)
  | text (text : String) (bytes : List Nat)
deriving DecidableEq

/-- ASCII last-resort rendering of tryAlternativeEncoding:
Buffer.toString with the ascii encoding masks each byte to 7 bits. -/
def asciiRender (bytes : List Nat) : String :=
  String.mk (bytes.map (fun b => Char.ofNat (b % 128)))

/-- tryAlternativeEncoding of src/lib/parser.js: decode with the other of
gbk / utf8; if that also throws, fall back to the ASCII rendering of at most
the first 50 bytes. The iconv decoder is the abstract oracle iconvDec. -/
def tryAlternativeEncoding (iconvDec : String → List Nat → Option String)
    (textBytes : List Nat) (originalEncoding : String) : String :=
  let alternativeEncoding := if originalEncoding = "gbk" then "utf8" else "gbk"
  match iconvDec alternativeEncoding textBytes with
  | some s => s
  | none => asciiRender (textBytes.take (min textBytes.length 50))

/-- decodeText of src/lib/parser.js: decode with the requested encoding; on a
thrown decode error (oracle result none) fall back via
tryAlternativeEncoding. -/
def decodeText (iconvDec : String → List Nat → Option String)
    (textBytes : List Nat) (encoding : String) : String :=
  match iconvDec encoding textBytes with
  | some s => s
  | none => tryAlternativeEncoding iconvDec textBytes encoding

/-- Result of the byte-collection loop of parseTextData: either the early
return for a lone newline byte, or the collected run (possibly empty) together
with the index the loop stopped at. -/
inductive TDResult where
  | newline (b : Nat) (next : Nat)
  | run (textBytes : List Nat) (next : Nat)
deriving DecidableEq

/-- Index at which a parseTextData loop result hands control back. -/
def TDResult.nextIndex : TDResult → Nat
  | .newline _ n => n
  | .run _ n => n

/-- The while loop of parseTextData, with explicit fuel. At each position:
stop on a registry match; on a newline byte, stop if the run is non-empty,
otherwise return the single newline; collect printable bytes; on an
unprintable byte, stop if the run is non-empty, otherwise skip the byte. -/
def textLoop (data : List Nat) : Nat → Nat → List Nat → TDResult
  | 0, index, textBytes => .run textBytes index
  | fuel + 1, index, textBytes =>
    if index < data.length then
      let byte := data.getD index 0
      if (findCommand data index).isSome then .run textBytes index
      else if isNewLine byte then
        if 0 < textBytes.length then .run textBytes index
        else .newline byte (index + 1)
      else if isPrintableChar byte then
        textLoop data fuel (index + 1) (textBytes ++ [byte])
      else if 0 < textBytes.length then .run textBytes index
      else textLoop data fuel (index + 1) textBytes
    else .run textBytes index

/-- parseTextData of src/lib/parser.js: run the collection loop (fuel
data.length - startIndex covers every possible iteration) and emit a text item
for a lone newline or a non-empty run; an empty run yields no item. -/
def parseTextData (iconvDec : String → List Nat → Option String)
    (data : List Nat) (startIndex : Nat) (encoding : String) :
    Option Item × Nat :=
  match textLoop data (data.length - startIndex) startIndex [] with
  | .newline b next => (some (Item.text "\n" [b]), next)
  | .run textBytes next =>
    if 0 < textBytes.length then
      (some (Item.text (decodeText iconvDec textBytes encoding) textBytes), next)
    else (none, next)

/-- parseCommand of src/lib/parser.js: read the parameter byte data[index + 2]
when the definition's parse function consumes one (undefined past the end of
the buffer), and advance past the signature plus one parameter byte exactly
when the parsed value is defined. -/
def parseCommand (data : List Nat) (index : Nat) (c : CommandDef) : Item × Nat :=
  let value : Option Nat := if c.takesValue then data.get? (index + 2) else none
  (Item.command c.name value,
    index + c.bytes.length + (if value.isSome then 1 else 0))

/-- parseNextItem of src/lib/parser.js: a registry match is parsed as a
command, otherwise as text data. -/
def parseNextItem (iconvDec : String → List Nat → Option String)
    (data : List Nat) (index : Nat) (encoding : String) : Option Item × Nat :=
  match findCommand data index with
  | some c =>
    let r := parseCommand data index c
    (some r.1, r.2)
  | none => parseTextData iconvDec data index encoding

/-- The while loop of parseBuffer, with explicit fuel: parse the next item,
keep it when present, and continue at the returned index. -/
def parseBufferGo (iconvDec : String → List Nat → Option String)
    (data : List Nat) (encoding : String) : Nat → Nat → List Item
  | 0, _ => []
  | fuel + 1, index =>
    if index < data.length then
      match parseNextItem iconvDec data index encoding with
      | (some item, next) => item :: parseBufferGo iconvDec data encoding fuel next
      | (none, next) => parseBufferGo iconvDec data encoding fuel next
    else []

/-- parseBuffer of src/lib/parser.js: empty input yields an empty item list,
otherwise the loop runs from index 0 (fuel data.length covers every iteration
because each step advances the index by at least one). -/
def parseBuffer (iconvDec : String → List Nat → Option String)
    (data : List Nat) (encoding : String) : List Item :=
  if data.length = 0 then [] else parseBufferGo iconvDec data encoding data.length 0

/-- Instrumented parseBuffer loop recording, for each iteration, the half-open
index range [index, next) the iteration accounts for. -/
def parseSteps (iconvDec : String → List Nat → Option String)
    (data : List Nat) (encoding : String) : Nat → Nat → List (Nat × Nat)
  | 0, _ => []
  | fuel + 1, index =>
    if index < data.length then
      (index, (parseNextItem iconvDec data index encoding).2) ::
        parseSteps iconvDec data encoding fuel
          (parseNextItem iconvDec data index encoding).2
    else []

/-- Chained-interval predicate: the listed half-open ranges are non-empty,
adjacent, start at the left bound and end exactly at the right bound. -/
def tiles : Nat → Nat → List (Nat × Nat) → Prop
  | a, b, [] => a = b
  | a, b, (s, e) :: rest => s = a ∧ a < e ∧ tiles e b rest

/-- Byte-level accounting of one parseTextData step starting at s: the step's
index range splits at some m into a prefix of individually skipped bytes
(unprintable and not newline) and the token's consumed bytes; for an ordinary
text item the raw run is exactly the byte slice of the consumed part and every
consumed byte is printable, for a lone-newline item the single consumed byte
is that newline, and a step that emits no item only skips. -/
def textStepAccounted (data : List Nat) (s : Nat) : Option Item × Nat → Prop
  | (some (Item.command _ _), _) => True
  | (some (Item.text _ tb), next) =>
      ∃ m, s ≤ m ∧ m ≤ next ∧
        (∀ j, s ≤ j → j < m → isPrintableChar (data.getD j 0) = false ∧
          isNewLine (data.getD j 0) = false) ∧
        ((tb = (data.drop m).take (next - m) ∧
          (∀ j, m ≤ j → j < next → isPrintableChar (data.getD j 0) = true)) ∨
         (next = m + 1 ∧ tb = [data.getD m 0] ∧ isNewLine (data.getD m 0) = true))
  | (none, next) =>
      ∀ j, s ≤ j → j < next → isPrintableChar (data.getD j 0) = false ∧
        isNewLine (data.getD j 0) = false

/-- Concrete decode oracle used by the witness instances: it successfully
utf8-decodes the byte run of the letters H and i and reports a thrown decode
error for everything else. -/
def iconvStub : String → List Nat → Option String :=
  fun enc bs => if enc = "utf8" ∧ bs = [72, 105] then some "Hi" else none

/-- Concrete decode oracle for the symmetric fallback witness: it successfully
gbk-decodes the two-byte gbk encoding of a Chinese character and reports a
thrown decode error for everything else (in particular for utf8). -/
def iconvStubGbk : String → List Nat → Option String :=
  fun enc bs => if enc = "gbk" ∧ bs = [196, 227] then some "你" else none

/-- Hypothetical one-byte command used in the registry-order witness. -/
def shortSig : CommandDef := { name := "SHORT", bytes := [0x1b], takesValue := false }

/-- Hypothetical two-byte command whose signature extends shortSig. -/
def longSig : CommandDef := { name := "LONG", bytes := [0x1b, 0x61], takesValue := true }

/-- JavaScript truthiness default: value || d is d when value is undefined or
the number 0, and value itself otherwise (used for the ALIGN parameter, the
PRINT_AND_FEED count and the lineWidth option). -/
def jsOrNat (v : Option Nat) (d : Nat) : Nat :=
  match v with
  | some x => if x = 0 then d else x
  | none => d

/-- JavaScript comparison value > 0 where value may be undefined (undefined
compares false). -/
def jsGtZero (v : Option Nat) : Bool :=
  match v with
  | some x => decide (0 < x)
  | none => false

/-- Formatter state of the TextFormatter class of src/lib/parser.js. -/
structure FmtState where
  lines : List String
  currentLine : String
  currentAlign : Nat
  isBold : Bool
  hasUnderline : Bool
  lineWidth : Nat
deriving DecidableEq

/-- TextFormatter constructor: empty output, empty line buffer, LEFT (0)
alignment, no emphasis, line width options.lineWidth || 48. -/
def initFormatter (lineWidth : Option Nat) : FmtState :=
  { lines := [], currentLine := "", currentAlign := 0, isBold := false,
    hasUnderline := false, lineWidth := jsOrNat lineWidth 48 }

/-- Test of the CJK_CHARS_REGEX character class: CJK unified ideographs
U+4E00..U+9FFF or halfwidth-and-fullwidth forms U+FF00..U+FFEF. -/
def isCjkChar (c : Char) : Bool :=
  decide ((0x4e00 ≤ c.toNat ∧ c.toNat ≤ 0x9fff) ∨
    (0xff00 ≤ c.toNat ∧ c.toNat ≤ 0xffef))

/-- getTextWidth of the TextFormatter: characters in the CJK ranges count two
columns, all others one. -/
def getTextWidth (text : String) : Nat :=
  text.data.foldl (fun w c => w + (if isCjkChar c then 2 else 1)) 0

/-- applyTextStyles of the TextFormatter: wrap in bold markers, then in
underline markers. -/
def applyTextStyles (st : FmtState) (text : String) : String :=
  let styledText := if st.isBold then "【" ++ text ++ "】" else text
  if st.hasUnderline then "_" ++ styledText ++ "_" else styledText

/-- Test of String.prototype.startsWith for the single-space prefix used by
applyAlignment, written over the character list. -/
def startsWithSpace (s : String) : Bool :=
  match s.data with
  | c :: _ => c == ' '
  | [] => false

/-- applyAlignment of the TextFormatter: text already starting with a space is
returned unpadded; otherwise CENTER (1) pads with
max(0, floor((lineWidth - width) / 2)) spaces and RIGHT (2) with
max(0, lineWidth - width) spaces (Nat subtraction realizes the max with 0),
while LEFT and every other alignment value adds no padding. -/
def applyAlignment (st : FmtState) (originalText styledText : String) : String :=
  if startsWithSpace originalText then styledText
  else
    let textWidth := getTextWidth styledText
    if st.currentAlign = 1 then
      String.mk (List.replicate ((st.lineWidth - textWidth) / 2) ' ') ++ styledText
    else if st.currentAlign = 2 then
      String.mk (List.replicate (st.lineWidth - textWidth) ' ') ++ styledText
    else styledText

/-- formatLine of the TextFormatter: style the buffered text, then align it
(alignment inspects the unstyled original). -/
def formatLine (st : FmtState) (text : String) : String :=
  applyAlignment st text (applyTextStyles st text)

/-- addFormattedLine of the TextFormatter: append the formatted line to the
output. -/
def addFormattedLine (st : FmtState) (text : String) : FmtState :=
  { st with lines := st.lines ++ [formatLine st text] }

/-- Character class of CONTROL_CHARS_REGEX: the control characters stripped
from text items (0x00-0x08, 0x0b, 0x0c, 0x0e-0x1f, 0x7f-0x9f). -/
def isStrippedControl (c : Char) : Bool :=
  decide (c.toNat ≤ 8 ∨ c.toNat = 0xb ∨ c.toNat = 0xc ∨
    (0xe ≤ c.toNat ∧ c.toNat ≤ 0x1f) ∨ (0x7f ≤ c.toNat ∧ c.toNat ≤ 0x9f))

/-- processTextItem of the TextFormatter: empty text is ignored; text equal to
or starting with a newline flushes a non-empty line buffer and never adds a
blank line; otherwise control characters and the exclamation mark are
stripped and the remainder, if any, is appended to the line buffer. -/
def processTextItem (st : FmtState) (text : String) : FmtState :=
  if text = "" then st
  else if text = "\n" ∨ text.data.getD 0 ' ' = '\n' then
    if 0 < st.currentLine.length then
      { addFormattedLine st st.currentLine with currentLine := "" }
    else st
  else
    let cleanText := String.mk (text.data.filter
      (fun c => !(isStrippedControl c) && !(c == '!')))
    if cleanText.length = 0 then st
    else { st with currentLine := st.currentLine ++ cleanText }

/-- Prefix test used by the substring search below. -/
def chPre : List Char → List Char → Bool
  | [], _ => true
  | _ :: _, [] => false
  | a :: as, b :: bs => (a == b) && chPre as bs

/-- Substring search modelling String.prototype.includes. -/
def chInf (pat : List Char) : List Char → Bool
  | [] => pat.isEmpty
  | c :: rest => chPre pat (c :: rest) || chInf pat rest

/-- Check of processCommandItem after PRINT_AND_FEED: the output is non-empty
and its last line includes the three-dash rule marker. -/
def lastLineHasRule (lines : List String) : Bool :=
  match lines.getLast? with
  | some l => chInf ("---".data) l.data
  | none => false

/-- processCutPaperCommand of the TextFormatter: flush a non-empty line
buffer, push six blank lines (the source loop pushes one empty string six
times), then push a full-width dash rule, the paper-cut marker line, and a
second full-width dash rule. -/
def processCutPaperCommand (st : FmtState) : FmtState :=
  let st1 := if 0 < st.currentLine.length then
      { addFormattedLine st st.currentLine with currentLine := "" }
    else st
  let st2 := { st1 with lines := st1.lines ++ List.replicate 6 "" }
  let st3 := { st2 with lines :=
    st2.lines ++ [String.mk (List.replicate st2.lineWidth '-')] }
  let st4 := { st3 with lines := st3.lines ++ [" 【纸张切割处】 "] }
  { st4 with lines := st4.lines ++ [String.mk (List.replicate st4.lineWidth '-')] }

/-- resetFormat of the TextFormatter. -/
def resetFormat (st : FmtState) : FmtState :=
  { st with
    currentLine := "", currentAlign := 0, isBold := false,
    hasUnderline := false }

/-- processInitializeCommand of the TextFormatter: flush a non-empty line
buffer, then reset the formatting state. -/
def processInitializeCommand (st : FmtState) : FmtState :=
  resetFormat (if 0 < st.currentLine.length then
    addFormattedLine st st.currentLine else st)

/-- processCommandItem of the TextFormatter: the switch over the command
name. -/
def processCommandItem (st : FmtState) (command : String) (value : Option Nat) :
    FmtState :=
  if command = "ALIGN" then { st with currentAlign := jsOrNat value 0 }
  else if command = "BOLD" ∨ command = "BOLD_MODE" then
    { st with isBold := jsGtZero value }
  else if command = "UNDERLINE" then { st with hasUnderline := jsGtZero value }
  else if command = "PRINT_AND_FEED" ∨ command = "LINE_FEED" then
    let st1 := if 0 < st.currentLine.length then
        { addFormattedLine st st.currentLine with currentLine := "" }
      else st
    let feedLines := jsOrNat value 1
    let st2 := if 1 < feedLines then
        { st1 with lines := st1.lines ++ List.replicate (feedLines - 1) "" }
      else st1
    if lastLineHasRule st2.lines then { st2 with lines := st2.lines ++ [""] }
    else st2
  else if command = "CUT_PAPER" then processCutPaperCommand st
  else if command = "INITIALIZE" then processInitializeCommand st
  else st

/-- processItem of the TextFormatter: dispatch on the token kind. -/
def processItem (st : FmtState) (item : Item) : FmtState :=
  match item with
  | Item.text t _ => processTextItem st t
  | Item.command c v => processCommandItem st c v

/-- finalizeLine of the TextFormatter: flush the last non-empty line buffer at
the end of the pass. -/
def finalizeLine (st : FmtState) : FmtState :=
  if 0 < st.currentLine.length then addFormattedLine st st.currentLine else st

/-- formatAsText of src/lib/parser.js: replay the items through a fresh
formatter and join the output lines with newlines. -/
def formatAsText (items : List Item) (lineWidth : Option Nat) : String :=
  String.intercalate "\n"
    (finalizeLine (items.foldl processItem (initFormatter lineWidth))).lines

/-- Hexadecimal digit value of a character, none for a non-hex character. -/
def hexDigitVal (c : Char) : Option Nat :=
  if '0' ≤ c ∧ c ≤ '9' then some (c.toNat - 48)
  else if 'a' ≤ c ∧ c ≤ 'f' then some (c.toNat - 87)
  else if 'A' ≤ c ∧ c ≤ 'F' then some (c.toNat - 55)
  else none

/-- Node Buffer.from with the hex encoding: decode pairs of hex digits and
stop silently at the first pair containing a non-hex character (the decoded
output is truncated, no error is thrown). -/
def hexDecode : List Char → List Nat
  | c1 :: c2 :: rest =>
    match hexDigitVal c1, hexDigitVal c2 with
    | some hi, some lo => (hi * 16 + lo) :: hexDecode rest
    | _, _ => []
  | _ => []

/-- Character class of the whitespace-stripping regex of parseHexString
(JavaScript backslash-s). -/
def isJsSpace (c : Char) : Bool :=
  decide (c.toNat = 32 ∨ (9 ≤ c.toNat ∧ c.toNat ≤ 13) ∨ c.toNat = 0xa0 ∨
    c.toNat = 0x1680 ∨ (0x2000 ≤ c.toNat ∧ c.toNat ≤ 0x200a) ∨ c.toNat = 0x2028 ∨
    c.toNat = 0x2029 ∨ c.toNat = 0x202f ∨ c.toNat = 0x205f ∨ c.toNat = 0x3000 ∨
    c.toNat = 0xfeff)

/-- The cleaned hex string of parseHexString: all whitespace removed. -/
def cleanHexOf (hexString : String) : List Char :=
  hexString.data.filter (fun c => !(isJsSpace c))

/-- parseHexString of src/lib/parser.js: after whitespace stripping, an empty
remainder and an odd-length remainder are rejected with an error; everything
else is decoded with Buffer.from hex semantics and tokenized. -/
def parseHexString (iconvDec : String → List Nat → Option String)
    (hexString : String) (encoding : String) : Except String (List Item) :=
  if (cleanHexOf hexString).length = 0 then
    Except.error "十六进制字符串不包含有效的十六进制字符"
  else if (cleanHexOf hexString).length % 2 ≠ 0 then
    Except.error "十六进制字符串长度必须为偶数"
  else Except.ok (parseBuffer iconvDec (hexDecode (cleanHexOf hexString)) encoding)

theorem commands_bytes_len : ∀ c ∈ COMMANDS, c.bytes.length = 2 := by
  intro c hc
  fin_cases hc <;> rfl

theorem sigMatches_le (data : List Nat) (index : Nat) (bytes : List Nat)
    (h : sigMatches data index bytes = true) : index + bytes.length ≤ data.length := by
  unfold sigMatches at h
  simp only [Bool.and_eq_true, decide_eq_true_eq] at h
  exact h.1

theorem bytesMatch_append (data : List Nat) (l t : List Nat) : ∀ index,
    bytesMatch data index (l ++ t) =
      (bytesMatch data index l && bytesMatch data (index + l.length) t) := by
  induction l with
  | nil => intro index; simp [bytesMatch]
  | cons b l ih =>
    intro index
    have harith : index + 1 + l.length = index + (l.length + 1) := by omega
    simp [bytesMatch, ih (index + 1), Bool.and_assoc, harith]

theorem sigMatches_of_append (data : List Nat) (index : Nat) (l t : List Nat)
    (h : sigMatches data index (l ++ t) = true) : sigMatches data index l = true := by
  unfold sigMatches at h ⊢
  simp only [Bool.and_eq_true, decide_eq_true_eq, List.length_append,
    bytesMatch_append] at h ⊢
  exact ⟨by omega, h.2.1⟩

theorem find?_before (p : CommandDef → Bool) : ∀ (l1 : List CommandDef) (a : CommandDef)
    (l2 : List CommandDef), p a = true →
    ∃ c, c ∈ l1 ++ [a] ∧ (l1 ++ a :: l2).find? p = some c := by
  intro l1
  induction l1 with
  | nil =>
    intro a l2 hp
    exact ⟨a, by simp, by simp [List.find?_cons_of_pos _ hp]⟩
  | cons b l1 ih =>
    intro a l2 hp
    by_cases hb : p b = true
    · exact ⟨b, by simp, by simp [List.find?_cons_of_pos _ hb]⟩
    · obtain ⟨c, hc1, hc2⟩ := ih a l2 hp
      refine ⟨c, by simp [List.mem_cons]; right; simpa using hc1, ?_⟩
      simpa [List.find?_cons_of_neg _ hb] using hc2

theorem textLoop_bounds (data : List Nat) : ∀ fuel index textBytes,
    index ≤ data.length →
    index ≤ (textLoop data fuel index textBytes).nextIndex ∧
      (textLoop data fuel index textBytes).nextIndex ≤ data.length := by
  intro fuel
  induction fuel with
  | zero =>
    intro index tb h
    exact ⟨le_refl _, h⟩
  | succ fuel ih =>
    intro index tb h
    simp only [textLoop]
    by_cases hlt : index < data.length
    · simp only [if_pos hlt]
      by_cases hcmd : (findCommand data index).isSome
      · simp [hcmd, TDResult.nextIndex, h]
      · simp only [hcmd, Bool.false_eq_true, if_false]
        by_cases hnl : isNewLine (data.getD index 0) = true
        · simp only [if_pos hnl]
          by_cases htb : 0 < tb.length
          · simp [htb, TDResult.nextIndex, h]
          · simp [htb, TDResult.nextIndex]; omega
        · simp only [if_neg hnl]
          by_cases hpr : isPrintableChar (data.getD index 0) = true
          · simp only [if_pos hpr]
            have := ih (index + 1) (tb ++ [data.getD index 0]) (by omega)
            exact ⟨by omega, this.2⟩
          · simp only [if_neg hpr]
            by_cases htb : 0 < tb.length
            · simp [htb, TDResult.nextIndex, h]
            · simp only [htb, if_false]
              have := ih (index + 1) tb (by omega)
              exact ⟨by omega, this.2⟩
    · simp [hlt, TDResult.nextIndex, h]

theorem textLoop_progress (data : List Nat) (fuel index : Nat)
    (hf : 1 ≤ fuel) (hlt : index < data.length)
    (hcmd : findCommand data index = none) :
    index < (textLoop data fuel index []).nextIndex := by
  cases fuel with
  | zero => omega
  | succ fuel =>
    simp only [textLoop, if_pos hlt]
    rw [hcmd]
    simp only [Option.isSome_none, Bool.false_eq_true, if_false]
    by_cases hnl : isNewLine (data.getD index 0) = true
    · rw [if_pos hnl]
      simp only [List.length_nil]
      rw [if_neg (lt_irrefl 0)]
      simp only [TDResult.nextIndex]
      omega
    · rw [if_neg hnl]
      by_cases hpr : isPrintableChar (data.getD index 0) = true
      · rw [if_pos hpr]
        have hb := textLoop_bounds data fuel (index + 1) ([] ++ [data.getD index 0]) (by omega)
        omega
      · rw [if_neg hpr]
        simp only [List.length_nil]
        rw [if_neg (lt_irrefl 0)]
        have hb := textLoop_bounds data fuel (index + 1) [] (by omega)
        omega

theorem parseTextData_snd (iconvDec : String → List Nat → Option String)
    (data : List Nat) (s : Nat) (enc : String) :
    (parseTextData iconvDec data s enc).2 =
      (textLoop data (data.length - s) s []).nextIndex := by
  unfold parseTextData
  rcases h : textLoop data (data.length - s) s [] with ⟨b, n⟩ | ⟨tb, n⟩
  · simp [TDResult.nextIndex]
  · simp only [TDResult.nextIndex]
    by_cases htb : 0 < tb.length <;> simp [htb]

theorem parseNextItem_progress (iconvDec : String → List Nat → Option String)
    (data : List Nat) (enc : String) (index : Nat) (hlt : index < data.length) :
    index < (parseNextItem iconvDec data index enc).2 ∧
      (parseNextItem iconvDec data index enc).2 ≤ data.length := by
  unfold parseNextItem
  rcases h : findCommand data index with _ | c
  · simp only [h]
    rw [parseTextData_snd]
    refine ⟨textLoop_progress data _ index (by omega) hlt h, ?_⟩
    exact (textLoop_bounds data _ index [] (le_of_lt hlt)).2
  · have h' : COMMANDS.find? (fun c => sigMatches data index c.bytes) = some c := h
    have hmem := List.mem_of_find?_eq_some h'
    have hlen : c.bytes.length = 2 := commands_bytes_len c hmem
    have hsig : sigMatches data index c.bytes = true := by
      have t := List.find?_some h'
      exact t
    have hle : index + 2 ≤ data.length := by
      have := sigMatches_le data index c.bytes hsig
      omega
    simp only [h]
    unfold parseCommand
    rcases hvv : (if c.takesValue then data.get? (index + 2) else none) with _ | v
    · simp only [hvv, Option.isSome_none, Bool.false_eq_true, if_false, hlen]
      omega
    · have hv2 : data.get? (index + 2) = some v := by
        cases htv : c.takesValue with
        | false => rw [htv] at hvv; simp at hvv
        | true => rw [htv] at hvv; exact hvv
      have : ¬ data.length ≤ index + 2 := by
        intro hcon
        rw [List.get?_eq_none.mpr hcon] at hv2
        exact absurd hv2 (by simp)
      simp only [hvv, Option.isSome_some, if_true, hlen]
      omega

theorem parseSteps_tiles (iconvDec : String → List Nat → Option String)
    (data : List Nat) (enc : String) : ∀ fuel index, index ≤ data.length →
    data.length - index ≤ fuel →
    tiles index data.length (parseSteps iconvDec data enc fuel index) := by
  intro fuel
  induction fuel with
  | zero =>
    intro index h1 h2
    have : index = data.length := by omega
    simp [parseSteps, tiles, this]
  | succ fuel ih =>
    intro index h1 h2
    by_cases hlt : index < data.length
    · have hp := parseNextItem_progress iconvDec data enc index hlt
      simp only [parseSteps, if_pos hlt, tiles]
      exact ⟨by trivial, hp.1, ih _ hp.2 (by omega)⟩
    · have : index = data.length := by omega
      simp [parseSteps, hlt, tiles, this]

theorem parseBufferGo_eq_filterMap (iconvDec : String → List Nat → Option String)
    (data : List Nat) (enc : String) : ∀ fuel index,
    parseBufferGo iconvDec data enc fuel index =
      (parseSteps iconvDec data enc fuel index).filterMap
        (fun se => (parseNextItem iconvDec data se.1 enc).1) := by
  intro fuel
  induction fuel with
  | zero => intro index; rfl
  | succ fuel ih =>
    intro index
    by_cases hlt : index < data.length
    · simp only [parseBufferGo, parseSteps, if_pos hlt]
      rcases hr : parseNextItem iconvDec data index enc with ⟨it, next⟩
      rcases it with _ | item
      · simp [hr, List.filterMap_cons, ih]
      · simp [hr, List.filterMap_cons, ih]
    · simp [parseBufferGo, parseSteps, hlt]

theorem textLoop_run_spec (data : List Nat) : ∀ fuel s acc tbOut next,
    textLoop data fuel s acc = TDResult.run tbOut next →
    ∃ m, s ≤ m ∧ m ≤ next ∧ (s < m → acc = []) ∧
      tbOut.length = acc.length + (next - m) ∧
      (∀ j, s ≤ j → j < m →
        isPrintableChar (data.getD j 0) = false ∧ isNewLine (data.getD j 0) = false) ∧
      tbOut = acc ++ (data.drop m).take (next - m) ∧
      (∀ j, m ≤ j → j < next → isPrintableChar (data.getD j 0) = true) := by
  intro fuel
  induction fuel with
  | zero =>
    intro s acc tbOut next h
    simp only [textLoop] at h
    injection h with h1 h2
    subst h1; subst h2
    exact ⟨s, le_refl s, le_refl s, by intro hc; omega, by simp,
      by intro j h1 h2; omega, by simp, by intro j h1 h2; omega⟩
  | succ fuel ih =>
    intro s acc tbOut next h
    simp only [textLoop] at h
    by_cases hlt : s < data.length
    swap
    · rw [if_neg hlt] at h
      injection h with h1 h2
      subst h1; subst h2
      exact ⟨s, le_refl s, le_refl s, by intro hc; omega, by simp,
        by intro j h1 h2; omega, by simp, by intro j h1 h2; omega⟩
    · rw [if_pos hlt] at h
      rcases hfc : findCommand data s with _ | c
      swap
      · rw [hfc] at h
        simp only [Option.isSome_some, if_pos] at h
        injection h with h1 h2
        subst h1; subst h2
        exact ⟨s, le_refl s, le_refl s, by intro hc; omega, by simp,
          by intro j h1 h2; omega, by simp, by intro j h1 h2; omega⟩
      · rw [hfc] at h
        simp only [Option.isSome_none, Bool.false_eq_true, if_false] at h
        by_cases hnl : isNewLine (data.getD s 0) = true
        · rw [if_pos hnl] at h
          by_cases hacc : 0 < acc.length
          · rw [if_pos hacc] at h
            injection h with h1 h2
            subst h1; subst h2
            exact ⟨s, le_refl s, le_refl s, by intro hc; omega, by simp,
              by intro j h1 h2; omega, by simp, by intro j h1 h2; omega⟩
          · rw [if_neg hacc] at h
            exact TDResult.noConfusion h
        · rw [if_neg hnl] at h
          by_cases hpr : isPrintableChar (data.getD s 0) = true
          · rw [if_pos hpr] at h
            obtain ⟨m', hm1, hm2, hm3, hlen, hm4, hm5, hm6⟩ :=
              ih (s + 1) (acc ++ [data.getD s 0]) tbOut next h
            have hm'eq : m' = s + 1 := by
              by_cases hlt2 : s + 1 < m'
              · have := hm3 hlt2; simp at this
              · omega
            subst hm'eq
            simp only [List.length_append, List.length_singleton] at hlen
            refine ⟨s, le_refl s, by omega, by intro hc; omega, by omega,
              by intro j h1 h2; omega, ?_, ?_⟩
            · rw [hm5]
              have ha : next - s = (next - (s + 1)) + 1 := by omega
              have hb : data.drop s = data.getD s 0 :: data.drop (s + 1) := by
                rw [List.drop_eq_getElem_cons hlt]
                rw [List.getD_eq_getElem data 0 hlt]
              rw [ha, hb, List.take_succ_cons, List.append_cons]
              simp
            · intro j h1 h2
              by_cases hj : j = s
              · rw [hj]; exact hpr
              · exact hm6 j (by omega) h2
          · rw [if_neg hpr] at h
            by_cases hacc : 0 < acc.length
            · rw [if_pos hacc] at h
              injection h with h1 h2
              subst h1; subst h2
              exact ⟨s, le_refl s, le_refl s, by intro hc; omega, by simp,
                by intro j h1 h2; omega, by simp, by intro j h1 h2; omega⟩
            · rw [if_neg hacc] at h
              have hacc0 : acc = [] := List.length_eq_zero.mp (by omega)
              obtain ⟨m', hm1, hm2, hm3, hlen, hm4, hm5, hm6⟩ :=
                ih (s + 1) acc tbOut next h
              simp only [Bool.not_eq_true] at hpr hnl
              refine ⟨m', by omega, hm2, fun hc => hacc0, hlen, ?_, hm5, hm6⟩
              intro j h1 h2
              by_cases hj : j = s
              · rw [hj]; exact ⟨hpr, hnl⟩
              · exact hm4 j (by omega) h2

theorem textLoop_newline_spec (data : List Nat) : ∀ fuel s acc b next,
    textLoop data fuel s acc = TDResult.newline b next →
    acc = [] ∧ ∃ j, s ≤ j ∧ next = j + 1 ∧ b = data.getD j 0 ∧
      isNewLine b = true ∧
      (∀ i, s ≤ i → i < j →
        isPrintableChar (data.getD i 0) = false ∧ isNewLine (data.getD i 0) = false) := by
  intro fuel
  induction fuel with
  | zero =>
    intro s acc b next h
    simp only [textLoop] at h
    exact TDResult.noConfusion h
  | succ fuel ih =>
    intro s acc b next h
    simp only [textLoop] at h
    by_cases hlt : s < data.length
    swap
    · rw [if_neg hlt] at h
      exact TDResult.noConfusion h
    · rw [if_pos hlt] at h
      rcases hfc : findCommand data s with _ | c
      swap
      · rw [hfc] at h
        simp only [Option.isSome_some, if_pos] at h
        exact TDResult.noConfusion h
      · rw [hfc] at h
        simp only [Option.isSome_none, Bool.false_eq_true, if_false] at h
        by_cases hnl : isNewLine (data.getD s 0) = true
        · rw [if_pos hnl] at h
          by_cases hacc : 0 < acc.length
          · rw [if_pos hacc] at h
            exact TDResult.noConfusion h
          · rw [if_neg hacc] at h
            injection h with h1 h2
            subst h1
            exact ⟨List.length_eq_zero.mp (by omega), s, le_refl s, h2.symm, rfl,
              hnl, by intro i h1 h2; omega⟩
        · rw [if_neg hnl] at h
          by_cases hpr : isPrintableChar (data.getD s 0) = true
          · rw [if_pos hpr] at h
            obtain ⟨habs, -⟩ := ih (s + 1) (acc ++ [data.getD s 0]) b next h
            simp at habs
          · rw [if_neg hpr] at h
            by_cases hacc : 0 < acc.length
            · rw [if_pos hacc] at h
              exact TDResult.noConfusion h
            · rw [if_neg hacc] at h
              obtain ⟨hacc0, j, hj1, hj2, hj3, hj4, hj5⟩ := ih (s + 1) acc b next h
              simp only [Bool.not_eq_true] at hpr hnl
              refine ⟨hacc0, j, by omega, hj2, hj3, hj4, ?_⟩
              intro i h1 h2
              by_cases hi : i = s
              · rw [hi]; exact ⟨hpr, hnl⟩
              · exact hj5 i (by omega) h2

theorem parseTextData_accounted (iconvDec : String → List Nat → Option String)
    (data : List Nat) (enc : String) (s : Nat) :
    textStepAccounted data s (parseTextData iconvDec data s enc) := by
  unfold parseTextData
  rcases h : textLoop data (data.length - s) s [] with ⟨b, n⟩ | ⟨tb, n⟩
  · obtain ⟨-, j, hj1, hj2, hj3, hj4, hj5⟩ :=
      textLoop_newline_spec data _ s [] b n h
    simp only [textStepAccounted]
    refine ⟨j, hj1, by omega, hj5, Or.inr ⟨hj2, by rw [hj3], ?_⟩⟩
    rw [← hj3]
    exact hj4
  · obtain ⟨m, hm1, hm2, hm3, hlen, hm4, hm5, hm6⟩ :=
      textLoop_run_spec data _ s [] tb n h
    show textStepAccounted data s
      (if 0 < tb.length then (some (Item.text (decodeText iconvDec tb enc) tb), n)
        else (none, n))
    by_cases htb : 0 < tb.length
    · rw [if_pos htb]
      simp only [textStepAccounted]
      exact ⟨m, hm1, hm2, hm4, Or.inl ⟨by simpa using hm5, hm6⟩⟩
    · rw [if_neg htb]
      simp only [textStepAccounted]
      intro j h1 h2
      simp only [List.length_nil] at hlen
      exact hm4 j h1 (by omega)

/-- C1: for every byte buffer, the tokenizer loop of parseBuffer terminates
and accounts for every byte exactly once: the per-iteration index ranges
recorded by parseSteps are non-empty, pairwise adjacent, start at 0 and
concatenate to exactly the buffer length; the item list parseBuffer returns is
precisely the items those iterations emit; and inside every text-data step the
range splits into individually skipped unprintable bytes followed by the
emitted token's consumed bytes (the raw run slice, or the one newline byte),
with nothing but skips when no item is emitted. -/
theorem C1_parseBuffer_partitions_buffer (iconvDec : String → List Nat → Option String)
    (data : List Nat) (enc : String) :
    tiles 0 data.length (parseSteps iconvDec data enc data.length 0) ∧
    parseBuffer iconvDec data enc =
      (parseSteps iconvDec data enc data.length 0).filterMap
        (fun se => (parseNextItem iconvDec data se.1 enc).1) ∧
    ∀ s, textStepAccounted data s (parseTextData iconvDec data s enc) := by
  refine ⟨?_, ?_, fun s => parseTextData_accounted iconvDec data enc s⟩
  · exact parseSteps_tiles iconvDec data enc data.length 0 (Nat.zero_le _) (by omega)
  · unfold parseBuffer
    by_cases h0 : data.length = 0
    · simp [h0, parseSteps]
    · simp [h0, parseBufferGo_eq_filterMap]

/-- C2: decodeText is total and follows the fallback chain: the requested
encoding is attempted first; on a thrown decode error the other of gbk / utf8
than the one requested is attempted on the same bytes, in both directions
(a run requested as gbk whose bytes the gbk decoder rejects yields the utf8
decoding of the same bytes, and a run requested as utf8 whose bytes the utf8
decoder rejects yields the gbk decoding); if that also throws, the result is
the ASCII rendering of at most the first 50 bytes. -/
theorem C2_decodeText_fallback_chain (iconvDec : String → List Nat → Option String)
    (textBytes : List Nat) (encoding : String) :
    (∀ s, iconvDec encoding textBytes = some s →
      decodeText iconvDec textBytes encoding = s) ∧
    (∀ s, iconvDec "gbk" textBytes = none → iconvDec "utf8" textBytes = some s →
      decodeText iconvDec textBytes "gbk" = s) ∧
    (∀ s, iconvDec "utf8" textBytes = none → iconvDec "gbk" textBytes = some s →
      decodeText iconvDec textBytes "utf8" = s) ∧
    (iconvDec "gbk" textBytes = none → iconvDec "utf8" textBytes = none →
      decodeText iconvDec textBytes "gbk" =
        asciiRender (textBytes.take (min textBytes.length 50)) ∧
      decodeText iconvDec textBytes "utf8" =
        asciiRender (textBytes.take (min textBytes.length 50))) := by
  refine ⟨?_, ?_, ?_, ?_⟩
  · intro s h
    simp [decodeText, h]
  · intro s hg hu
    simp [decodeText, tryAlternativeEncoding, hg, hu]
  · intro s hu hg
    simp [decodeText, tryAlternativeEncoding, hg, hu]
  · intro hg hu
    constructor <;> simp [decodeText, tryAlternativeEncoding, hg, hu]

/-- Witness for C2 at concrete oracles and byte runs, in both fallback
directions: a run requested as gbk whose gbk decode fails falls back to its
utf8 decoding, and a run requested as utf8 whose utf8 decode fails falls back
to its gbk decoding. -/
theorem C2_witness :
    decodeText iconvStub [72, 105] "gbk" = "Hi" ∧
    decodeText iconvStubGbk [196, 227] "utf8" = "你" :=
  ⟨(C2_decodeText_fallback_chain iconvStub [72, 105] "gbk").2.1 "Hi" rfl rfl,
   (C2_decodeText_fallback_chain iconvStubGbk [196, 227] "utf8").2.2.1 "你" rfl rfl⟩

/-- C3: findCommand scans the registry in fixed registration order: a result
always matches at the index (which forces the whole signature to lie inside
the buffer, so a definition whose signature extends past the end is never
returned), and in any registry where one definition's signature is a byte
prefix of a later definition's signature, a position where the longer one
matches is resolved to the earlier definition or one before it. -/
theorem C3_findCommand_registry_order (data : List Nat) (index : Nat) :
    (∀ c, findCommand data index = some c →
      c ∈ COMMANDS ∧ sigMatches data index c.bytes = true) ∧
    (∀ c, data.length < index + c.bytes.length → findCommand data index ≠ some c) ∧
    (∀ pre mid post : List CommandDef, ∀ c1 c2 : CommandDef, ∀ t : List Nat,
      c2.bytes = c1.bytes ++ t → sigMatches data index c2.bytes = true →
      ∃ c, c ∈ pre ++ [c1] ∧
        findCommandIn (pre ++ c1 :: mid ++ c2 :: post) data index = some c) := by
  refine ⟨?_, ?_, ?_⟩
  · intro c h
    have h' : COMMANDS.find? (fun c => sigMatches data index c.bytes) = some c := h
    refine ⟨List.mem_of_find?_eq_some h', ?_⟩
    have t := List.find?_some h'
    exact t
  · intro c hlen h
    have h' : COMMANDS.find? (fun c => sigMatches data index c.bytes) = some c := h
    have hs : sigMatches data index c.bytes = true := by
      have t := List.find?_some h'
      exact t
    have := sigMatches_le data index c.bytes hs
    omega
  · intro pre mid post c1 c2 t ht hm
    rw [ht] at hm
    have h1 : sigMatches data index c1.bytes = true :=
      sigMatches_of_append data index _ _ hm
    have hfb := find?_before (fun c => sigMatches data index c.bytes) pre c1
      (mid ++ c2 :: post) h1
    simpa [findCommandIn, List.cons_append, List.append_assoc] using hfb

/-- Witness for C3 on a deliberately ordered hypothetical pair: the one-byte
signature registered first shadows the two-byte signature it prefixes. -/
theorem C3_witness : ∃ c, c ∈ [shortSig] ∧
    findCommandIn [shortSig, longSig] [0x1b, 0x61] 0 = some c :=
  (C3_findCommand_registry_order [0x1b, 0x61] 0).2.2 [] [] [] shortSig longSig
    [0x61] rfl (by decide)

theorem textLoop_no_command (data : List Nat) : ∀ fuel index textBytes j,
    index ≤ j → j < (textLoop data fuel index textBytes).nextIndex →
    findCommand data j = none := by
  intro fuel
  induction fuel with
  | zero =>
    intro index tb j h1 h2
    simp only [textLoop, TDResult.nextIndex] at h2
    omega
  | succ fuel ih =>
    intro index tb j h1 h2
    by_cases hlt : index < data.length
    · simp only [textLoop, if_pos hlt] at h2
      rcases hfc : findCommand data index with _ | c
      · rw [hfc] at h2
        simp only [Option.isSome_none, Bool.false_eq_true, if_false] at h2
        by_cases hnl : isNewLine (data.getD index 0) = true
        · rw [if_pos hnl] at h2
          by_cases htb : 0 < tb.length
          · rw [if_pos htb] at h2
            simp only [TDResult.nextIndex] at h2
            omega
          · rw [if_neg htb] at h2
            simp only [TDResult.nextIndex] at h2
            have hje : j = index := by omega
            rw [hje]
            exact hfc
        · rw [if_neg hnl] at h2
          by_cases hpr : isPrintableChar (data.getD index 0) = true
          · rw [if_pos hpr] at h2
            by_cases hj : j = index
            · rw [hj]; exact hfc
            · exact ih (index + 1) (tb ++ [data.getD index 0]) j (by omega) h2
          · rw [if_neg hpr] at h2
            by_cases htb : 0 < tb.length
            · rw [if_pos htb] at h2
              simp only [TDResult.nextIndex] at h2
              omega
            · rw [if_neg htb] at h2
              by_cases hj : j = index
              · rw [hj]; exact hfc
              · exact ih (index + 1) tb j (by omega) h2
      · rw [hfc] at h2
        simp [TDResult.nextIndex] at h2
        omega
    · simp [textLoop, hlt, TDResult.nextIndex] at h2
      omega

/-- C5: command matching takes priority over continuing a text run: every
buffer position covered by a parseTextData step (in particular every position
of the raw byte run of the Text token it emits) is a position where the
registry matches no command signature. -/
theorem C5_text_run_has_no_command (iconvDec : String → List Nat → Option String)
    (data : List Nat) (enc : String) (s j : Nat)
    (h1 : s ≤ j) (h2 : j < (parseTextData iconvDec data s enc).2) :
    findCommand data j = none := by
  rw [parseTextData_snd] at h2
  exact textLoop_no_command data _ s [] j h1 h2

/-- Witness for C5: inside the two-byte text run of the letters H and i, no
position matches a registered command. -/
theorem C5_witness : findCommand [72, 105] 1 = none :=
  C5_text_run_has_no_command iconvStub [72, 105] "utf8" 0 1 (by decide) (by decide)

/-- C8: tokenizing the signature bytes of any registered command in isolation
yields exactly one Command token carrying the definition's declared name (its
parameter value is undefined because no parameter byte follows). -/
theorem C8_signature_round_trip (iconvDec : String → List Nat → Option String)
    (enc : String) (c : CommandDef) (hc : c ∈ COMMANDS) :
    parseBuffer iconvDec c.bytes enc = [Item.command c.name none] := by
  fin_cases hc <;> rfl

/-- Witness for C8 at the INITIALIZE registry entry. -/
theorem C8_witness :
    parseBuffer iconvStub [0x1b, 0x40] "utf8" = [Item.command "INITIALIZE" none] :=
  C8_signature_round_trip iconvStub "utf8"
    { name := "INITIALIZE", bytes := [0x1b, 0x40], takesValue := false } (by decide)

/-- C10: when the buffer ends exactly after a parameter-taking command's
two-byte signature, the tokenizer still emits the Command token, its parameter
value is undefined, and the cursor advances only past the two signature bytes,
landing exactly on the buffer end. -/
theorem C10_truncated_parameter_command (iconvDec : String → List Nat → Option String)
    (data : List Nat) (enc : String) (index : Nat) (c : CommandDef)
    (h1 : findCommand data index = some c) (h2 : c.takesValue = true)
    (h3 : data.length = index + 2) :
    parseNextItem iconvDec data index enc = (some (Item.command c.name none), index + 2) := by
  have h' : COMMANDS.find? (fun c => sigMatches data index c.bytes) = some c := h1
  have hmem := List.mem_of_find?_eq_some h'
  have hlen : c.bytes.length = 2 := commands_bytes_len c hmem
  have hv : data.get? (index + 2) = none := List.get?_eq_none.mpr (by omega)
  unfold parseNextItem
  simp [h1, parseCommand, h2, hv, hlen]
  omega

/-- Witness for C10: a buffer holding only the ALIGN signature still produces
the ALIGN token with undefined value and stops at the buffer end. -/
theorem C10_witness :
    parseNextItem iconvStub [0x1b, 0x61] 0 "utf8" = (some (Item.command "ALIGN" none), 2) :=
  C10_truncated_parameter_command iconvStub [0x1b, 0x61] "utf8" 0
    { name := "ALIGN", bytes := [0x1b, 0x61], takesValue := true } rfl rfl rfl

/-- Counterexample for C4: the string zz consists only of non-hex-digit
characters, yet parseHexString raises no error: Buffer.from with the hex
encoding silently truncates at the first invalid pair, so the empty decoded
buffer is tokenized to an empty item list. -/
theorem C4_counterexample :
    parseHexString iconvStub "zz" "utf8" = Except.ok [] := rfl

/-- C4 as amended: after whitespace stripping, parseHexString raises an error
exactly when the remainder is empty or of odd length; a non-hex-digit
character does not cause an error — the accepted string is tokenized from the
hex-decoded (possibly truncated) byte buffer. -/
theorem C4_hex_validation (iconvDec : String → List Nat → Option String)
    (hexString encoding : String) :
    ((∃ e, parseHexString iconvDec hexString encoding = Except.error e) ↔
      ((cleanHexOf hexString).length = 0 ∨ (cleanHexOf hexString).length % 2 = 1)) ∧
    (∀ r, parseHexString iconvDec hexString encoding = Except.ok r →
      r = parseBuffer iconvDec (hexDecode (cleanHexOf hexString)) encoding) := by
  constructor
  · constructor
    · rintro ⟨e, he⟩
      unfold parseHexString at he
      by_cases h0 : (cleanHexOf hexString).length = 0
      · left; exact h0
      · rw [if_neg h0] at he
        by_cases h2 : (cleanHexOf hexString).length % 2 ≠ 0
        · right; omega
        · rw [if_neg h2] at he
          exact Except.noConfusion he
    · intro h
      unfold parseHexString
      by_cases h0 : (cleanHexOf hexString).length = 0
      · rw [if_pos h0]; exact ⟨_, rfl⟩
      · rw [if_neg h0]
        have h2 : (cleanHexOf hexString).length % 2 ≠ 0 := by
          rcases h with h | h
          · exact absurd h h0
          · omega
        rw [if_pos h2]; exact ⟨_, rfl⟩
  · intro r hr
    unfold parseHexString at hr
    by_cases h0 : (cleanHexOf hexString).length = 0
    · rw [if_pos h0] at hr; exact Except.noConfusion hr
    · rw [if_neg h0] at hr
      by_cases h2 : (cleanHexOf hexString).length % 2 ≠ 0
      · rw [if_pos h2] at hr; exact Except.noConfusion hr
      · rw [if_neg h2] at hr
        injection hr with hh
        exact hh.symm

/-- Witness for C4 as amended: the accepted non-hex string zz decodes to the
empty buffer and tokenizes to the empty item list. -/
theorem C4_witness :
    ([] : List Item) = parseBuffer iconvStub (hexDecode (cleanHexOf "zz")) "utf8" :=
  (C4_hex_validation iconvStub "zz" "utf8").2 [] rfl

/-- C6: the CUT_PAPER transition flushes a non-empty line buffer, then appends
exactly six blank lines, a full-width dash rule, the paper-cut marker line and
a second full-width dash rule; and concretely, hex 1D5600 parses to the single
Command token CUT_PAPER with value 0, whose formatted output is six blank
lines followed by the marker between two 48-dash rules. -/
theorem C6_cut_paper_layout (st : FmtState) :
    (processCutPaperCommand st).lines =
      st.lines ++
        (if 0 < st.currentLine.length then [formatLine st st.currentLine] else []) ++
        List.replicate 6 "" ++
        [String.mk (List.replicate st.lineWidth '-'), " 【纸张切割处】 ",
          String.mk (List.replicate st.lineWidth '-')] ∧
    (∀ iconvDec : String → List Nat → Option String, ∀ enc : String,
      parseBuffer iconvDec [0x1d, 0x56, 0x00] enc =
        [Item.command "CUT_PAPER" (some 0)]) ∧
    formatAsText [Item.command "CUT_PAPER" (some 0)] none =
      String.intercalate "\n" (List.replicate 6 "" ++
        [String.mk (List.replicate 48 '-'), " 【纸张切割处】 ",
          String.mk (List.replicate 48 '-')]) := by
  refine ⟨?_, fun iconvDec enc => rfl, rfl⟩
  by_cases h : 0 < st.currentLine.length <;>
    simp [processCutPaperCommand, addFormattedLine, h, List.append_assoc]

/-- Counterexample for C6 as originally stated: the paper-cut marker line is
not centered. Formatting the parse of hex 1D5600 at the default width puts at
line index 7 (after the six blanks and the first rule) the fixed literal
marker carrying a single space on each side — processCutPaperCommand pushes it
verbatim, bypassing alignment — and that line differs from the formatter's own
centered rendering of the marker text at line width 48. -/
theorem C6_counterexample :
    (finalizeLine (List.foldl processItem (initFormatter none)
        (parseBuffer iconvStub [0x1d, 0x56, 0x00] "utf8"))).lines.getD 7 "" =
      " 【纸张切割处】 " ∧
    (finalizeLine (List.foldl processItem (initFormatter none)
        (parseBuffer iconvStub [0x1d, 0x56, 0x00] "utf8"))).lines.getD 7 "" ≠
      applyAlignment { initFormatter none with currentAlign := 1 }
        "【纸张切割处】" "【纸张切割处】" := by
  constructor
  · rfl
  · decide

/-- C7: the ALIGN transition sets the current alignment from the token's
parameter (undefined defaults to LEFT, 0); any parameter outside the
recognized CENTER and RIGHT values leaves every subsequently flushed line
unpadded, exactly as the LEFT state does. -/
theorem C7_align_command (st : FmtState) (value : Option Nat) :
    (processCommandItem st "ALIGN" value).currentAlign = value.getD 0 ∧
    (∀ w, value = some w → w ≠ 1 → w ≠ 2 → ∀ orig styled,
      applyAlignment (processCommandItem st "ALIGN" value) orig styled = styled) ∧
    (∀ orig styled, applyAlignment { st with currentAlign := 0 } orig styled = styled) := by
  have halign : (processCommandItem st "ALIGN" value).currentAlign = jsOrNat value 0 := rfl
  refine ⟨?_, ?_, ?_⟩
  · rw [halign]
    rcases value with _ | w
    · rfl
    · by_cases hw : w = 0 <;> simp [jsOrNat, hw]
  · intro w hval h1 h2 orig styled
    have hca : (processCommandItem st "ALIGN" value).currentAlign = w := by
      rw [halign, hval]
      by_cases hw : w = 0 <;> simp [jsOrNat, hw]
    simp [applyAlignment, hca, h1, h2]
  · intro orig styled
    simp [applyAlignment]

/-- Witness for C7 at the out-of-range parameter 3: the flushed line receives
no padding. -/
theorem C7_witness :
    applyAlignment (processCommandItem (initFormatter none) "ALIGN" (some 3)) "x" "x" = "x" :=
  (C7_align_command (initFormatter none) (some 3)).2.1 3 rfl (by decide) (by decide) "x" "x"

/-- C9: display width counts a character as two columns exactly when it lies
in the checked CJK/fullwidth ranges, center alignment left-pads with
floor((lineWidth - width) / 2) spaces, and concretely ESC a 1 followed by the
text Hi at line width 10 formats to the single line of four spaces then Hi. -/
theorem C9_center_width_scenario (iconvDec : String → List Nat → Option String)
    (h : iconvDec "utf8" [72, 105] = some "Hi") :
    formatAsText (parseBuffer iconvDec [0x1b, 0x61, 0x01, 0x48, 0x69] "utf8")
      (some 10) = "    Hi" ∧
    (∀ c : Char, getTextWidth (String.mk [c]) = if isCjkChar c then 2 else 1) ∧
    (∀ st : FmtState, ∀ orig styled : String, st.currentAlign = 1 →
      startsWithSpace orig = false →
      applyAlignment st orig styled =
        String.mk (List.replicate ((st.lineWidth - getTextWidth styled) / 2) ' ') ++ styled) := by
  refine ⟨?_, ?_, ?_⟩
  · have hb : parseBuffer iconvDec [0x1b, 0x61, 0x01, 0x48, 0x69] "utf8" =
        [Item.command "ALIGN" (some 1),
          Item.text (decodeText iconvDec [72, 105] "utf8") [72, 105]] := rfl
    have ht : decodeText iconvDec [72, 105] "utf8" = "Hi" := by
      unfold decodeText
      rw [h]
    rw [hb, ht]
    rfl
  · intro c
    simp [getTextWidth]
  · intro st orig styled h1 h2
    simp [applyAlignment, h1, h2]

/-- Witness for C9 at the concrete oracle: the centered scenario line. -/
theorem C9_witness :
    formatAsText (parseBuffer iconvStub [0x1b, 0x61, 0x01, 0x48, 0x69] "utf8")
      (some 10) = "    Hi" :=
  (C9_center_width_scenario iconvStub rfl).1
